import Mathlib

/-!
Verification of the `mistsys/sarama-consumer` consumer-group client
(`consumer.go`) against its natural-language specification.

The embedding below translates the relevant Go code directly:

* the per-partition acknowledgement tracker (`partition` struct, the
  `done` closure of `consumer.run`, and the tracker update performed in
  the `premessages` case of `consumer.run`);
* the inner message-delivery loop of `consumer.run`;
* the post-JoinGroup control flow of `client.run` (leader branch,
  SyncGroup send, error dispositions of JoinGroup/SyncGroup/Heartbeat);
* the `difference` sorted-merge helper;
* the `RoundRobin` partitioner (`Partition`, `ParseSync`);
* the duplicate-topic check performed by the `add` closure of
  `client.run` on behalf of `client.Consume`.

Kafka offsets are Go `int64` values; every scenario in this file stays
within a few hundred of zero, far from 2^63, so they are modelled as
unbounded `Int`.  Bucket counters are Go `uint8` values and are modelled
as `Nat` with an explicit wrap-around decrement (`decr8`).
-/

namespace SaramaConsumer

/-- The per-partition tracker state (struct `partition` in consumer.go):
`offset` is the "newest comittable offset", `buckets` the uint8 counts of
outstanding offsets in groups of 64, `oldest` the first offset covered by
the oldest bucket. The `consumer sarama.PartitionConsumer` handle takes no
part in the tracker arithmetic and is omitted. -/
structure Partition where
  offset : Int
  buckets : List Nat
  oldest : Int
deriving DecidableEq

/-- Go `uint8` decrement (`partition.buckets[index]--`): 0 wraps to 255. -/
def decr8 (b : Nat) : Nat := (b + 255) % 256

/-- `partition.buckets[index]--`. The callers guard `index` to be in range,
so the `getD` default is unreachable. -/
def bumpDown (buckets : List Nat) (index : Nat) : List Nat :=
  buckets.set index (decr8 (buckets.getD index 0))

/-- The `for partition.buckets[0] == 0` loop in the `done` closure of
`consumer.run`: while the front bucket is zero, advance the committable
offset by 64, set `oldest` to the new offset, and pop the front bucket.
The Go loop condition re-reads `partition.buckets[0]` after each pop; when
the pop has emptied the slice that read is out of range (a runtime panic),
modelled as `none`. Arguments are (offset, oldest, buckets); a normal exit
returns the updated (offset, oldest, buckets). -/
def advanceAux : Int → Int → List Nat → Option (Int × Int × List Nat)
  | _, _, [] => none
  | off, old, b :: rest =>
    if b = 0 then advanceAux (off + 64) (off + 64) rest
    else some (off, old, b :: rest)

/-- The `done` closure of `consumer.run` (lines 629-652), for one partition:
```
delta := partition.oldest - msg.Offset
if delta < 0 { return }
index := int(delta) >> 6
if index >= len(partition.buckets) { return }
partition.buckets[index]--
if index == 0 { for partition.buckets[0] == 0 { ... } }
```
`none` models the out-of-range read of `buckets[0]` inside the advance
loop; all other paths return the updated partition. -/
def done (p : Partition) (o : Int) : Option Partition :=
  if p.oldest - o < 0 then some p
  else
    if (p.oldest - o).toNat / 64 < p.buckets.length then
      if (p.oldest - o).toNat / 64 = 0 then
        (advanceAux p.offset p.oldest
            (bumpDown p.buckets ((p.oldest - o).toNat / 64))).map
          (fun r => ⟨r.1, r.2.2, r.2.1⟩)
      else some ⟨p.offset, bumpDown p.buckets ((p.oldest - o).toNat / 64), p.oldest⟩
    else some p

/-- The `for index >= len(partition.buckets)` loop of the `premessages`
case: append buckets holding 64 until `index` is a valid position. -/
def extendBuckets (buckets : List Nat) (index : Nat) : List Nat :=
  buckets ++ List.replicate (index + 1 - buckets.length) 64

/-- The tracker update of the `premessages` case of `consumer.run`
(lines 716-732):
```
delta := partition.oldest - msg.Offset
if delta < 0 { continue }       // message dropped, not forwarded
index := int(delta) >> 6
for index >= len(partition.buckets) { partition.buckets = append(partition.buckets, 64) }
// ... and deliver the msg
```
The boolean records whether the message was forwarded to the application
(the `continue` skips the delivery). -/
def deliverTrack (p : Partition) (o : Int) : Partition × Bool :=
  if p.oldest - o < 0 then (p, false)
  else
    ({ p with buckets := extendBuckets p.buckets ((p.oldest - o).toNat / 64) }, true)

/-- One partition-related event handled by `consumer.run`: a raw message
arriving over `con.premessages`, or an acknowledgement arriving over
`con.done`. -/
inductive Ev
  | msg (o : Int)
  | ack (o : Int)
deriving DecidableEq

/-- One multiplexer step of `consumer.run` on the tracker state, also
accumulating the offsets of the messages actually forwarded to the
application. Acknowledgements are processed by the same `done` closure
whether they arrive in the outer select or inside the delivery loop, so a
linear event sequence captures every interleaving of tracker updates. -/
def trackStep (s : Partition × List Int) (e : Ev) : Option (Partition × List Int) :=
  match e with
  | Ev.msg o =>
    let r := deliverTrack s.1 o
    some (r.1, if r.2 then s.2 ++ [o] else s.2)
  | Ev.ack o => (done s.1 o).map (fun p => (p, s.2))

/-- Run the tracker over a sequence of events; `none` as soon as a step
signals the out-of-range bucket read. -/
def trackRun : Partition × List Int → List Ev → Option (Partition × List Int)
  | s, [] => some s
  | s, e :: evs =>
    match trackStep s e with
    | none => none
    | some t => trackRun t evs

/-- Deliveries of offsets 63, 62, ..., 0 into a tracker whose base offset
is 63; every one lies in the window `[oldest-63, oldest]`, so the code
accepts and forwards all 64 of them into the single bucket. -/
def fullBucketMsgs : List Ev := (List.range 64).map (fun i => Ev.msg (63 - (i : Int)))

/-- Acknowledgements of exactly the 64 offsets delivered by
`fullBucketMsgs`, each acknowledged once. -/
def fullBucketAcks : List Ev := (List.range 64).map (fun i => Ev.ack (63 - (i : Int)))

/-- The deliveries of the out-of-order acknowledgement scenario: messages
at offsets 0 through 63 on a partition whose base offset is 0. -/
def c3Msgs : List Ev := (List.range 64).map (fun i => Ev.msg (i : Int))

/-- The acknowledgements 63, 62, ..., 1 of the out-of-order scenario. -/
def c3AcksDesc : List Ev := (List.range 63).map (fun i => Ev.ack (63 - (i : Int)))

/-- The four outcomes one iteration of the inner delivery `select` of
`consumer.run` (lines 734-749) can take: the send on `con.messages`
succeeds, an acknowledgement arrives on `con.done`, an assignment arrives
on `con.assignments`, or `con.closed` fires. -/
inductive DeliverEv
  | sendOk
  | doneMsg
  | assign
  | closed
deriving DecidableEq

/-- The inner delivery loop of `consumer.run`:
```
for {
  select {
  case con.messages <- msg:
    break                      // Go: terminates the select, not the for
  case msg := <-con.done: done(msg)
  case a := <-con.assignments: assignment(a)
  case <-con.closed: return
  }
}
```
In Go a plain `break` inside a `select` terminates the `select` statement
only, so after a successful send control falls to the next iteration of
the `for` and the same `msg` is offered again; only `<-con.closed` leaves
the loop (by returning from `consumer.run`). Given the sequence of select
outcomes, the result counts how often `msg` was sent on `con.messages`
and reports whether the loop was exited. -/
def deliverLoop : List DeliverEv → Nat → Nat × Bool
  | [], sends => (sends, false)
  | DeliverEv.sendOk :: evs, sends => deliverLoop evs (sends + 1)
  | DeliverEv.doneMsg :: evs, sends => deliverLoop evs sends
  | DeliverEv.assign :: evs, sends => deliverLoop evs sends
  | DeliverEv.closed :: _, sends => (sends, true)

/-- What the post-JoinGroup step of `client.run` did: whether the
partitioner's `Partition` was invoked, whether a partitioning error was
surfaced, whether `coor.SyncGroup(sreq)` was called, whether `pause` was
set to `true`, and whether the step jumped back to the top of `join_loop`
(`continue join_loop`). -/
structure PostJoinStep where
  partitionerInvoked : Bool
  errorDelivered : Bool
  syncGroupSent : Bool
  pauseSet : Bool
  rejoins : Bool
deriving DecidableEq

/-- The leader branch of `client.run` (consumer.go lines 381-397):
```
if jresp.LeaderId == member_id {
  err := cl.config.Partitioner.Partition(sreq, jresp, cl.client)
  if err != nil { cl.deliverError("partitioning", err) }
  pause = true
  continue join_loop
}
sresp, err := coor.SyncGroup(sreq)
```
`pause = true` and `continue join_loop` execute on every leader path —
the `if err != nil` block only surfaces the error — so a leader never
reaches the `SyncGroup` call; a follower falls through to it. -/
def postJoin (isLeader : Bool) (partitionErr : Bool) : PostJoinStep :=
  if isLeader then
    { partitionerInvoked := true
      errorDelivered := partitionErr
      syncGroupSent := false
      pauseSet := true
      rejoins := true }
  else
    { partitionerInvoked := false
      errorDelivered := false
      syncGroupSent := true
      pauseSet := false
      rejoins := false }

/-- How `client.run` disposes of one broker request's outcome: whether it
executes `pause = true`, whether it executes `break join_loop` (which
leads to `cl.client.RefreshCoordinator` and then the next
`cl.client.Coordinator` lookup), whether it `break`s only the heartbeat
loop (rejoining with no refresh and no pause), and whether it reads a
field of the absent (nil) response. -/
structure ReqDisp where
  setsPause : Bool
  breaksJoinLoop : Bool
  breaksHeartbeatLoop : Bool
  readsNilResp : Bool
deriving DecidableEq

/-- `sarama.ErrNotCoordinatorForConsumer` (kafka error code 16). -/
def notCoordinatorErr : Int := 16

/-- Disposition of the JoinGroup exchange (consumer.go lines 342-361).
sarama returns a nil response together with any transport error, so the
response is `none` exactly on a transport error.
```
jresp, err := coor.JoinGroup(jreq)
if err != nil || jresp.Err == sarama.ErrNotCoordinatorForConsumer { break join_loop }
if err == nil && jresp.Err != 0 { err = jresp.Err }
if err != nil { ...; pause = true; continue join_loop }
```
On a transport error the `||` short-circuits before reading `jresp.Err`,
and the code breaks out to the coordinator refresh without pausing. -/
def joinDisp : Option Int → ReqDisp
  | none => ⟨false, true, false, false⟩
  | some e =>
    if e = notCoordinatorErr then ⟨false, true, false, false⟩
    else if e ≠ 0 then ⟨true, false, false, false⟩
    else ⟨false, false, false, false⟩

/-- Disposition of the SyncGroup exchange (consumer.go lines 393-405).
```
sresp, err := coor.SyncGroup(sreq)
if err != nil && sresp.Err == sarama.ErrNotCoordinatorForConsumer { break join_loop }
if err == nil && sresp.Err != 0 { err = sresp.Err }
if err != nil { cl.deliverError(...); pause = true; continue join_loop }
```
The first test uses `&&`, so on a transport error it evaluates
`sresp.Err` on the nil response (a nil-pointer dereference), and when a
response is present the `break join_loop` branch is unreachable: even a
not-coordinator error code takes the pause-and-rejoin path. -/
def syncDisp : Option Int → ReqDisp
  | none => ⟨false, false, false, true⟩
  | some e =>
    if e ≠ 0 then ⟨true, false, false, false⟩
    else ⟨false, false, false, false⟩

/-- Disposition of the Heartbeat exchange (consumer.go lines 464-478).
```
resp, err := coor.Heartbeat(...)
if err != nil || resp.Err == sarama.ErrNotCoordinatorForConsumer { break join_loop }
if err != nil || resp.Err != 0 { break heartbeat_loop }
```
A transport error breaks to the coordinator refresh; a non-zero,
non-not-coordinator error code breaks only the heartbeat loop; neither
path pauses. -/
def heartbeatDisp : Option Int → ReqDisp
  | none => ⟨false, true, false, false⟩
  | some e =>
    if e = notCoordinatorErr then ⟨false, true, false, false⟩
    else if e ≠ 0 then ⟨false, false, true, false⟩
    else ⟨false, false, false, false⟩

/-- The errors `client.Consume` can report. -/
inductive ConsumeErr
  | duplicateTopic
  | newConsumerFailed
deriving DecidableEq

/-- The `add` closure of `client.run` (consumer.go lines 242-258). The
`consumers` map of topic to consumer is modelled as an association list
in insertion order; `Nat` stands for the consumer object (whose channels
the closure never touches). `saramaOk` abstracts whether
`sarama.NewConsumerFromClient` succeeds. A duplicate topic is rejected
before anything else happens, leaving the map untouched. -/
def addConsumer (consumers : List (String × Nat)) (topic : String)
    (saramaOk : Bool) (con : Nat) : List (String × Nat) × Option ConsumeErr :=
  if (consumers.lookup topic).isSome then (consumers, some ConsumeErr.duplicateTopic)
  else if saramaOk then (consumers ++ [(topic, con)], none)
  else (consumers, some ConsumeErr.newConsumerFailed)

/-- `client.Consume` (consumer.go lines 210-228): it builds the consumer,
sends it to `client.run`'s `add` closure, and returns the consumer only
when the reply carries no error — otherwise `(nil, err)`. The result is
(updated consumers map, returned consumer, returned error). -/
def consume (consumers : List (String × Nat)) (topic : String)
    (saramaOk : Bool) (con : Nat) :
    List (String × Nat) × Option Nat × Option ConsumeErr :=
  let r := addConsumer consumers topic saramaOk con
  match r.2 with
  | some e => (r.1, none, some e)
  | none => (r.1, some con, none)

/-- One member's `sarama.ConsumerGroupMemberMetadata` as carried in the
JoinGroup response: protocol version and requested topics. -/
structure MemberMeta where
  version : Nat
  topics : List String
deriving DecidableEq

/-- Go's `m[k] = append(m[k], v)` on a map of slices, modelled on an
association list kept in first-insertion order. -/
def listAppendAt {α : Type} : List (String × List α) → String → α → List (String × List α)
  | [], k, v => [(k, [v])]
  | (k₂, vs) :: rest, k, v =>
    if k₂ = k then (k₂, vs ++ [v]) :: rest
    else (k₂, vs) :: listAppendAt rest k v

/-- The `by_topic` inversion loop of `RoundRobin.Partition` (consumer.go
lines 889-900): members whose metadata version is not 1 are skipped;
every other member is appended to the member list of each topic it
requests. Go map iteration order is unspecified, so `by_member` is taken
as a list in an arbitrary order. -/
def buildByTopic (by_member : List (String × MemberMeta)) : List (String × List String) :=
  by_member.foldl
    (fun acc mr =>
      if mr.2.version = 1 then
        mr.2.topics.foldl (fun acc₂ topic => listAppendAt acc₂ topic mr.1) acc
      else acc)
    []

/-- `assignments[member_id][topic] = append(..., partition)` — the nested
map update in `RoundRobin.Partition`, again as insertion-ordered
association lists. -/
def assignAppend : List (String × List (String × List Int)) → String → String → Int →
    List (String × List (String × List Int))
  | [], member, topic, p => [(member, [(topic, [p])])]
  | (m, ts) :: rest, member, topic, p =>
    if m = member then (m, listAppendAt ts topic p) :: rest
    else (m, ts) :: assignAppend rest member topic p

/-- The assignment loop of `RoundRobin.Partition` (consumer.go lines
902-925):
```
for topic, members := range by_topic {
  partitions, err := client.Partitions(topic)
  if len(partitions) == 0 { continue }
  for i, member_id := range members {
    partition := partitions[i%len(partitions)]
    topics[topic] = append(topics[topic], partition)
  }
}
```
`parts` stands for `client.Partitions` (the error path is not taken in
the scenarios considered). Note the loop ranges over the members, handing
member `i` the single partition `partitions[i % len(partitions)]`; the
`getD` default is unreachable because `i % len` is in range for a
non-empty partition list. -/
def roundRobinAssign (by_topic : List (String × List String)) (parts : String → List Int) :
    List (String × List (String × List Int)) :=
  by_topic.foldl
    (fun acc tm =>
      let partitions := parts tm.1
      if partitions.length = 0 then acc
      else
        tm.2.enum.foldl
          (fun acc₂ im =>
            assignAppend acc₂ im.2 tm.1 (partitions.getD (im.1 % partitions.length) 0))
          acc)
    []

/-- `RoundRobin.Partition` (consumer.go lines 883-937): group the
requesting members by topic, then assign partitions; the result is, per
member, the `Topics` map of the version-1
`sarama.ConsumerGroupMemberAssignment` encoded into the SyncGroup
request. -/
def roundRobinPartition (by_member : List (String × MemberMeta))
    (parts : String → List Int) : List (String × List (String × List Int)) :=
  roundRobinAssign (buildByTopic by_member) parts

/-- `RoundRobin.ParseSync` (consumer.go lines 939-948): decode this
member's assignment from the SyncGroup response. `none` as input models a
response whose member assignment fails to decode; otherwise the pair is
the assignment's version and `Topics` map, and any version other than 1
is an error. -/
def parseSyncAssignment (ma : Option (Nat × List (String × List Int))) :
    Option (List (String × List Int)) :=
  match ma with
  | none => none
  | some m => if m.1 = 1 then some m.2 else none

/-- `sort.Sort` on an `int32Slice` (consumer.go lines 842-843 with the
`Less` of lines 864-869): sort ascending. -/
def sortInts (l : List Int) : List Int := List.insertionSort (· ≤ ·) l

/-- The merge loop of `difference` (consumer.go lines 845-859) over the
two sorted slices, returning `(added, removed)`:
```
for i < len(o) && j < len(n) {
  if o[i] < n[j] { removed = append(removed, o[i]); i++ }
  else if o[i] > n[j] { added = append(added, n[j]); j++ }
  else { i++; j++ }
}
removed = append(removed, o[i:]...)
added = append(added, n[j:]...)
``` -/
def mergeDiff : List Int → List Int → List Int × List Int
  | [], n => (n, [])
  | a :: o, [] => ([], a :: o)
  | a :: o, b :: n =>
    if a < b then
      ((mergeDiff o (b :: n)).1, a :: (mergeDiff o (b :: n)).2)
    else if b < a then
      (b :: (mergeDiff (a :: o) n).1, (mergeDiff (a :: o) n).2)
    else
      mergeDiff o n
termination_by o n => o.length + n.length

/-- `difference(old map[int32]*partition, next []int32)` (consumer.go
lines 833-862). The map's keys are collected in Go's unspecified map
iteration order; the embedding takes that key list (duplicate-free, in
any order) as `old`. Both slices are sorted and merged, producing
`(added, removed)`. -/
def difference (old next : List Int) : List Int × List Int :=
  mergeDiff (sortInts old) (sortInts next)

end SaramaConsumer

namespace SaramaConsumer

/-- `advanceAux` only ever increases the committable offset. -/
theorem advanceAux_offset_le :
    ∀ (bs : List Nat) (off old off2 old2 : Int) (bs2 : List Nat),
      advanceAux off old bs = some (off2, old2, bs2) → off ≤ off2 := by
  intro bs
  induction bs with
  | nil => intro off old off2 old2 bs2 h; simp [advanceAux] at h
  | cons b rest ih =>
    intro off old off2 old2 bs2 h
    by_cases hb : b = 0
    · simp only [advanceAux, hb, if_pos rfl] at h
      have := ih (off + 64) (off + 64) off2 old2 bs2 h
      omega
    · simp only [advanceAux, if_neg hb, Option.some.injEq, Prod.mk.injEq] at h
      omega

/-- A `done` call that completes normally never decreases the committable
offset. -/
theorem done_offset_le (p : Partition) (o : Int) (q : Partition)
    (h : done p o = some q) : p.offset ≤ q.offset := by
  unfold done at h
  split_ifs at h with h1 h2 h3
  · obtain rfl : p = q := by simpa using h
    exact le_refl _
  · rw [Option.map_eq_some'] at h
    obtain ⟨r, hr, hq⟩ := h
    have := advanceAux_offset_le _ _ _ _ _ _ hr
    have hq1 : q.offset = r.1 := by rw [← hq]
    omega
  · obtain rfl : Partition.mk p.offset (bumpDown p.buckets ((p.oldest - o).toNat / 64)) p.oldest = q := by
      simpa using h
    exact le_refl _
  · obtain rfl : p = q := by simpa using h
    exact le_refl _

/-- The tracker update on message delivery never changes the committable
offset. -/
theorem deliverTrack_offset (p : Partition) (o : Int) :
    (deliverTrack p o).1.offset = p.offset := by
  unfold deliverTrack
  split_ifs <;> rfl

/-- A single multiplexer step never decreases the committable offset. -/
theorem trackStep_offset_le (s t : Partition × List Int) (e : Ev)
    (h : trackStep s e = some t) : s.1.offset ≤ t.1.offset := by
  cases e with
  | msg o =>
    simp only [trackStep, Option.some.injEq] at h
    rw [← h]
    exact le_of_eq (deliverTrack_offset s.1 o).symm
  | ack o =>
    simp only [trackStep, Option.map_eq_some'] at h
    obtain ⟨p, hp, ht⟩ := h
    have := done_offset_le s.1 o p hp
    rw [← ht]
    exact this

/-- Over any completed run of deliveries and acknowledgements the
committable offset never decreases. -/
theorem trackRun_offset_le :
    ∀ (evs : List Ev) (s t : Partition × List Int),
      trackRun s evs = some t → s.1.offset ≤ t.1.offset := by
  intro evs
  induction evs with
  | nil =>
    intro s t h
    obtain rfl : s = t := by simpa [trackRun] using h
    exact le_refl _
  | cons e evs ih =>
    intro s t h
    unfold trackRun at h
    cases hst : trackStep s e with
    | none => rw [hst] at h; exact absurd h (by simp)
    | some u =>
      rw [hst] at h
      exact le_trans (trackStep_offset_le s u e hst) (ih u t h)

/-- C6: within one generation, the committable offset of a partition is
monotone non-decreasing across every sequence of message deliveries and
`done()` calls; in particular across any two successive observation points
of a run, so the sequence of offsets committed for that partition (each
commit reads `partition.offset`) is non-decreasing. -/
theorem committable_offset_monotone (p : Partition) (l₀ : List Int)
    (evs₁ evs₂ : List Ev) (q₁ q₂ : Partition) (l₁ l₂ : List Int)
    (h₁ : trackRun (p, l₀) evs₁ = some (q₁, l₁))
    (h₂ : trackRun (q₁, l₁) evs₂ = some (q₂, l₂)) :
    p.offset ≤ q₁.offset ∧ q₁.offset ≤ q₂.offset :=
  ⟨trackRun_offset_le evs₁ (p, l₀) (q₁, l₁) h₁,
   trackRun_offset_le evs₂ (q₁, l₁) (q₂, l₂) h₂⟩

/-- Witness for C6 at a concrete run: deliver offset 0, then acknowledge
it; the committable offset never decreases. -/
theorem committable_offset_monotone_witness :
    trackRun (⟨0, [], 0⟩, []) [Ev.msg 0] = some (⟨0, [64], 0⟩, [0]) ∧
    trackRun (⟨0, [64], 0⟩, [0]) [Ev.ack 0] = some (⟨0, [63], 0⟩, [0]) ∧
    ((Partition.mk 0 [] 0).offset ≤ (Partition.mk 0 [64] 0).offset ∧
      (Partition.mk 0 [64] 0).offset ≤ (Partition.mk 0 [63] 0).offset) :=
  ⟨by decide, by decide,
    committable_offset_monotone ⟨0, [], 0⟩ [] [Ev.msg 0] [Ev.ack 0]
      ⟨0, [64], 0⟩ ⟨0, [63], 0⟩ [0] [0] (by decide) (by decide)⟩

/-- C1 (code bug): the code computes `delta = oldest - o`, not
`o - oldest`. Consequently an acknowledgement at offset 1 with
`oldest = 0` — at or above `oldest` and inside the single live bucket, so
the claim says it is counted — is silently dropped (first conjunct), an
acknowledgement at offset 32 with `oldest = 64` — below `oldest`, so the
claim says it is dropped — is counted into bucket 0 (second conjunct),
and a delivered message above `oldest` is dropped rather than tracked and
forwarded (third conjunct). -/
theorem done_drop_direction :
    done ⟨0, [64], 0⟩ 1 = some ⟨0, [64], 0⟩ ∧
    done ⟨64, [64], 64⟩ 32 = some ⟨64, [63], 64⟩ ∧
    deliverTrack ⟨0, [64], 0⟩ 1 = (⟨0, [64], 0⟩, false) := by
  decide

set_option maxRecDepth 100000 in
/-- C3 (code bug): the out-of-order acknowledgement scenario of the spec.
With `oldest = committable_offset = 0`, deliver offsets 0..63, then call
`done` for 63, 62, ..., 1: the committable offset remains 0 (first
conjunct) — but because the code computes `delta = oldest - o`, only the
message at offset 0 was ever tracked and forwarded, and after the final
`done(0)` the committable offset is still 0 with bucket count 63, not 64
as the claim requires (second conjunct). -/
theorem out_of_order_ack_scenario :
    trackRun (⟨0, [], 0⟩, []) (c3Msgs ++ c3AcksDesc) = some (⟨0, [64], 0⟩, [0]) ∧
    trackRun (⟨0, [], 0⟩, []) (c3Msgs ++ c3AcksDesc ++ [Ev.ack 0]) =
      some (⟨0, [63], 0⟩, [0]) := by
  decide

set_option maxRecDepth 100000 in
/-- C10 (code bug): a disciplined trace that makes the advance loop index
an empty bucket slice. Starting from base offset 63, the 64 messages of
`fullBucketMsgs` are all accepted and forwarded (first conjunct lists the
64 forwarded offsets) and the bucket list is exactly one bucket.
`fullBucketAcks` then acknowledges exactly those 64 offsets, each once
(third conjunct: the acknowledged offsets are the forwarded ones, without
duplicates). The 64th acknowledgement drives `buckets[0]` to zero, the
loop pops the only bucket, and the loop condition re-reads `buckets[0]`
of the now-empty slice: out of range (second conjunct: the run aborts). -/
theorem advance_loop_empty_index :
    trackRun (⟨63, [], 63⟩, []) fullBucketMsgs =
      some (⟨63, [64], 63⟩, (List.range 64).map (fun i => (63 - i : Int))) ∧
    trackRun (⟨63, [], 63⟩, []) (fullBucketMsgs ++ fullBucketAcks) = none ∧
    ((List.range 64).map (fun i => (63 - i : Int))).Nodup := by
  decide

/-- C2 (code bug): after the send on `con.messages` succeeds, the Go
`break` terminates only the `select`, so the inner delivery loop is still
running (first conjunct: one event processed, send count 1, loop not
exited) and the very same message is sent again on the next iteration
(second conjunct: two successful sends of the one pending message). The
claim that the loop terminates after the first successful send is
therefore false of the code. -/
theorem delivery_loop_resends :
    deliverLoop [DeliverEv.sendOk] 0 = (1, false) ∧
    deliverLoop [DeliverEv.sendOk, DeliverEv.sendOk] 0 = (2, false) := by
  decide

/-- C4 counterexample: when the JoinGroup response names this member as
leader (and the partitioner succeeds), the code does not send the
SyncGroup request and it does set the 1-second pause flag, contradicting
the claim that the leader "sends a SyncGroup request carrying those
assignments ... and then immediately rejoins without the 1-second
pause". -/
theorem leader_no_sync_counterexample :
    ¬ ((postJoin true false).syncGroupSent = true ∧
        (postJoin true false).pauseSet = false) := by
  decide

/-- C4 amended: whenever a JoinGroup response names this member as
leader, `client.run` invokes the partitioner to compute assignments for
all members into the SyncGroup request object, surfaces a partitioner
error when there is one, does not send the SyncGroup request, sets the
pause flag, and rejoins — so the rejoin happens only after the 1-second
pause, and the steady heartbeat state is never entered by a leader. -/
theorem leader_rejoin_with_pause (partitionErr : Bool) :
    postJoin true partitionErr =
      { partitionerInvoked := true
        errorDelivered := partitionErr
        syncGroupSent := false
        pauseSet := true
        rejoins := true } := by
  cases partitionErr <;> rfl

/-- C7 counterexample: a transport error (absent response) on JoinGroup,
SyncGroup or Heartbeat never executes `pause = true`, contradicting the
claim that any broker-request transport error enters the 1-second Paused
state. -/
theorem transport_error_no_pause_counterexample :
    ¬ ((joinDisp none).setsPause = true ∧ (syncDisp none).setsPause = true ∧
        (heartbeatDisp none).setsPause = true) := by
  decide

/-- C7 amended: a transport error on JoinGroup or Heartbeat breaks out of
the join loop to the coordinator refresh and the next coordinator lookup
with no pause; a transport error on SyncGroup instead reads the error
field of the absent response (the not-coordinator test uses `&&` rather
than `||`), so it neither pauses nor refreshes. -/
theorem transport_error_disposition :
    joinDisp none = ⟨false, true, false, false⟩ ∧
    syncDisp none = ⟨false, false, false, true⟩ ∧
    heartbeatDisp none = ⟨false, true, false, false⟩ := by
  decide

/-- C9: calling `Consume` for a topic that already has a registered
consumer returns a configuration error and no consumer, and leaves the
consumers map — hence the first consumer's registration and its channels
— unchanged. -/
theorem double_subscribe_rejected (consumers : List (String × Nat))
    (topic : String) (saramaOk : Bool) (con c₀ : Nat)
    (h : consumers.lookup topic = some c₀) :
    consume consumers topic saramaOk con =
      (consumers, none, some ConsumeErr.duplicateTopic) := by
  unfold consume addConsumer
  simp [h]

/-- Witness for C9: with topic `"t"` already registered to consumer 5, a
second `Consume "t"` fails with the duplicate-topic error and the map is
unchanged. -/
theorem double_subscribe_rejected_witness :
    ([("t", 5)] : List (String × Nat)).lookup "t" = some 5 ∧
    consume [("t", 5)] "t" true 9 =
      ([("t", 5)], none, some ConsumeErr.duplicateTopic) :=
  ⟨by decide, double_subscribe_rejected [("t", 5)] "t" true 9 5 (by decide)⟩

/-- C5 (code bug): two members `"a"` and `"b"`, both requesting topic
`"t"` with three partitions `[0, 1, 2]`. Because the assignment loop
ranges over the members (not the partitions) and never sorts the member
list, each member receives exactly one partition and partition 2 is
assigned to nobody: with the members arriving in order a, b the result is
a→[0], b→[1] (first conjunct), and in order b, a it is b→[0], a→[1]
(second conjunct) — under no iteration order does member a receive the
claimed [0, 2]. `ParseSync` on a's version-1 assignment then yields [0],
not [0, 2] (third conjunct). -/
theorem roundrobin_two_members_three_partitions :
    roundRobinPartition [("a", ⟨1, ["t"]⟩), ("b", ⟨1, ["t"]⟩)] (fun _ => [0, 1, 2]) =
      [("a", [("t", [0])]), ("b", [("t", [1])])] ∧
    roundRobinPartition [("b", ⟨1, ["t"]⟩), ("a", ⟨1, ["t"]⟩)] (fun _ => [0, 1, 2]) =
      [("b", [("t", [0])]), ("a", [("t", [1])])] ∧
    parseSyncAssignment (some (1, [("t", [0])])) = some [("t", [0])] := by
  decide

/-- On strictly sorted inputs the merge loop computes exactly the two
one-sided differences, in input order: `added` is the second list with
the first's elements removed, `removed` the first with the second's
elements removed. -/
theorem mergeDiff_eq_filter :
    ∀ (o n : List Int), List.Sorted (· < ·) o → List.Sorted (· < ·) n →
      mergeDiff o n =
        (n.filter (fun x => decide (x ∉ o)), o.filter (fun x => decide (x ∉ n))) := by
  intro o
  induction o with
  | nil =>
    intro n _ _
    simp [mergeDiff]
  | cons a o iho =>
    intro n
    induction n with
    | nil =>
      intro _ _
      simp [mergeDiff]
    | cons b n ihn =>
      intro ho hn
      obtain ⟨ha, ho2⟩ := List.sorted_cons.mp ho
      obtain ⟨hb, hn2⟩ := List.sorted_cons.mp hn
      rcases lt_trichotomy a b with hab | hab | hab
      · -- a < b: a is emitted into removed
        have hne : ∀ x ∈ b :: n, ¬ x = a := by
          intro x hx
          rcases List.mem_cons.mp hx with rfl | hx2
          · omega
          · have := hb x hx2; omega
        have hstep : mergeDiff (a :: o) (b :: n) =
            ((mergeDiff o (b :: n)).1, a :: (mergeDiff o (b :: n)).2) := by
          simp [mergeDiff, hab]
        rw [hstep, iho (b :: n) ho2 hn]
        dsimp only
        simp only [Prod.mk.injEq]
        refine ⟨?_, ?_⟩
        · refine List.filter_congr ?_
          intro x hx
          rw [decide_eq_decide]
          simp [List.mem_cons, hne x hx]
        · have hano : a ∉ b :: n := by
            intro hmem
            rcases List.mem_cons.mp hmem with rfl | h2
            · omega
            · have := hb a h2; omega
          rw [List.filter_cons_of_pos (by simpa using hano)]
      · -- a = b: both heads are consumed, neither is emitted
        subst hab
        have hstep : mergeDiff (a :: o) (a :: n) = mergeDiff o n := by
          simp [mergeDiff]
        rw [hstep, iho n ho2 hn2]
        simp only [Prod.mk.injEq]
        refine ⟨?_, ?_⟩
        · rw [List.filter_cons_of_neg (by simp)]
          refine (List.filter_congr ?_).symm
          intro x hx
          rw [decide_eq_decide]
          have hxa : ¬ x = a := by have := hb x hx; omega
          simp [List.mem_cons, hxa]
        · rw [List.filter_cons_of_neg (by simp)]
          refine (List.filter_congr ?_).symm
          intro x hx
          rw [decide_eq_decide]
          have hxa : ¬ x = a := by have := ha x hx; omega
          simp [List.mem_cons, hxa]
      · -- b < a: b is emitted into added
        have hstep : mergeDiff (a :: o) (b :: n) =
            (b :: (mergeDiff (a :: o) n).1, (mergeDiff (a :: o) n).2) := by
          have h1 : ¬ a < b := by omega
          simp [mergeDiff, h1, hab]
        rw [hstep, ihn ho hn2]
        dsimp only
        simp only [Prod.mk.injEq]
        refine ⟨?_, ?_⟩
        · have hbno : b ∉ a :: o := by
            intro hmem
            rcases List.mem_cons.mp hmem with rfl | h2
            · omega
            · have := ha b h2; omega
          rw [List.filter_cons_of_pos (by simpa using hbno)]
        · refine List.filter_congr ?_
          intro x hx
          rw [decide_eq_decide]
          have hxb : ¬ x = b := by
            rcases List.mem_cons.mp hx with rfl | h2
            · omega
            · have := ha x h2; omega
          simp [List.mem_cons, hxb]

/-- The Go sort yields an ascending permutation of its input. -/
theorem sortInts_sorted (l : List Int) : List.Sorted (· ≤ ·) (sortInts l) :=
  List.sorted_insertionSort _ l

/-- `sortInts` permutes its input. -/
theorem sortInts_perm (l : List Int) : List.Perm (sortInts l) l :=
  List.perm_insertionSort _ l

/-- Sorting a duplicate-free list of offsets yields a strictly sorted
list. -/
theorem sortInts_sorted_lt (l : List Int) (h : l.Nodup) :
    List.Sorted (· < ·) (sortInts l) :=
  (sortInts_sorted l).lt_of_le ((sortInts_perm l).nodup_iff.mpr h)

/-- `difference` on duplicate-free inputs computes the two filtered
sorted lists. -/
theorem difference_eq_filter (o n : List Int) (ho : o.Nodup) (hn : n.Nodup) :
    difference o n =
      ((sortInts n).filter (fun x => decide (x ∉ sortInts o)),
        (sortInts o).filter (fun x => decide (x ∉ sortInts n))) :=
  mergeDiff_eq_filter _ _ (sortInts_sorted_lt o ho) (sortInts_sorted_lt n hn)

/-- C8 counterexample: with owned set `A = {1}` and assigned list
`B = [1, 1]` (a list; its element set is `{1}`), the code returns
`added = [1]`, `removed = []`, whose union contains 1 even though the
symmetric difference of `A` and the set of elements of `B` is empty — so
the claim, which quantifies over every assigned list, is false. -/
theorem difference_dup_counterexample :
    ¬ (∀ x : Int,
        (x ∈ (difference [1] [1, 1]).1 ∨ x ∈ (difference [1] [1, 1]).2) ↔
          ((x ∈ ([1] : List Int) ∧ x ∉ ([1, 1] : List Int)) ∨
            (x ∈ ([1, 1] : List Int) ∧ x ∉ ([1] : List Int)))) := by
  intro h
  have hval : difference [1] [1, 1] = ([1], []) := by
    simp [difference, sortInts, List.insertionSort, List.orderedInsert, mergeDiff]
  have h1 := h 1
  rw [hval] at h1
  simp at h1

/-- C8 amended: for every owned partition set `A` (a key list, hence
duplicate-free) `difference(A, A)` — for any enumeration order of the
second `A` — returns empty added and removed lists; and for every owned
set `A` and duplicate-free assigned list `B`, `difference(A, B)` returns
sorted added and removed lists that are disjoint and whose disjoint union
is the symmetric difference: `added` holds exactly the elements of `B`
not in `A`, `removed` exactly those of `A` not in `B`. -/
theorem difference_spec (o n : List Int) (ho : o.Nodup) (hn : n.Nodup) :
    (∀ m : List Int, List.Perm m o → difference o m = ([], [])) ∧
    List.Sorted (· ≤ ·) (difference o n).1 ∧
    List.Sorted (· ≤ ·) (difference o n).2 ∧
    (∀ x : Int, x ∈ (difference o n).1 ↔ x ∈ n ∧ x ∉ o) ∧
    (∀ x : Int, x ∈ (difference o n).2 ↔ x ∈ o ∧ x ∉ n) ∧
    (∀ x : Int, ¬ (x ∈ (difference o n).1 ∧ x ∈ (difference o n).2)) := by
  have hkey := difference_eq_filter o n ho hn
  have hmem1 : ∀ x : Int, x ∈ (difference o n).1 ↔ x ∈ n ∧ x ∉ o := by
    intro x
    rw [hkey]
    dsimp only
    simp [List.mem_filter, (sortInts_perm n).mem_iff, (sortInts_perm o).mem_iff]
  have hmem2 : ∀ x : Int, x ∈ (difference o n).2 ↔ x ∈ o ∧ x ∉ n := by
    intro x
    rw [hkey]
    dsimp only
    simp [List.mem_filter, (sortInts_perm n).mem_iff, (sortInts_perm o).mem_iff]
  refine ⟨?_, ?_, ?_, hmem1, hmem2, ?_⟩
  · intro m hm
    have hmnd : m.Nodup := hm.nodup_iff.mpr ho
    rw [difference_eq_filter o m ho hmnd]
    simp only [Prod.mk.injEq]
    refine ⟨?_, ?_⟩
    · rw [List.filter_eq_nil_iff]
      intro x hx
      have hxo : x ∈ sortInts o :=
        (sortInts_perm o).mem_iff.mpr (hm.subset ((sortInts_perm m).mem_iff.mp hx))
      simp [hxo]
    · rw [List.filter_eq_nil_iff]
      intro x hx
      have hxm : x ∈ sortInts m :=
        (sortInts_perm m).mem_iff.mpr (hm.symm.subset ((sortInts_perm o).mem_iff.mp hx))
      simp [hxm]
  · rw [hkey]
    dsimp only
    exact List.Pairwise.sublist (List.filter_sublist _) (sortInts_sorted n)
  · rw [hkey]
    dsimp only
    exact List.Pairwise.sublist (List.filter_sublist _) (sortInts_sorted o)
  · intro x hx
    have h1 := (hmem1 x).mp hx.1
    have h2 := (hmem2 x).mp hx.2
    exact h1.2 h2.1

/-- Witness for C8 at `A = [1, 2]`, `B = [3]`: both inputs are
duplicate-free, and `difference` behaves as the amended claim states. -/
theorem difference_spec_witness :
    ([1, 2] : List Int).Nodup ∧ ([3] : List Int).Nodup ∧
    ((∀ m : List Int, List.Perm m [1, 2] → difference [1, 2] m = ([], [])) ∧
      List.Sorted (· ≤ ·) (difference [1, 2] [3]).1 ∧
      List.Sorted (· ≤ ·) (difference [1, 2] [3]).2 ∧
      (∀ x : Int, x ∈ (difference [1, 2] [3]).1 ↔ x ∈ [3] ∧ x ∉ [1, 2]) ∧
      (∀ x : Int, x ∈ (difference [1, 2] [3]).2 ↔ x ∈ [1, 2] ∧ x ∉ [3]) ∧
      (∀ x : Int, ¬ (x ∈ (difference [1, 2] [3]).1 ∧ x ∈ (difference [1, 2] [3]).2))) :=
  ⟨by decide, by decide, difference_spec [1, 2] [3] (by decide) (by decide)⟩

end SaramaConsumer
